import Mathlib

/-!
Verification of core behaviors of the agentsdk-go runtime: the tool
registry and its JSON-schema parameter validator, the in-memory session
store, the human-in-the-loop approval queue with its TTL whitelist and
durable record log, and the workflow graph executor with its middleware
pipeline.  Go code is shallowly embedded: maps become association lists,
`error` returns become `Option String` / `Except String`, timestamps
become naturals, and mutation becomes explicit state passing.
-/

namespace AgentSDK

/-! ## Shared helpers: Go map reads and writes on association lists -/

/-- Association-list lookup by decidable key equality (a Go map read). -/
def alookup {α β : Type} [DecidableEq α] (key : α) : List (α × β) → Option β
  | [] => none
  | (k, v) :: rest => if k = key then some v else alookup key rest

/-- Assignment `m[k] = v` on a Go map, embedded on an association list:
replaces the value of an existing key in place, otherwise appends. -/
def upsert {α β : Type} [DecidableEq α] (key : α) (val : β) :
    List (α × β) → List (α × β)
  | [] => [(key, val)]
  | (k, v) :: rest =>
    if k = key then (k, val) :: rest else (k, v) :: upsert key val rest

/-- Whitespace recognition of Go's `strings.TrimSpace` restricted to the
common ASCII space characters. -/
def isSpaceChar (c : Char) : Bool :=
  c = ' ' ∨ c = '\t' ∨ c = '\n' ∨ c = '\r'

/-- Go's `strings.TrimSpace`: leading and trailing whitespace removed. -/
def trimSpace (s : String) : String :=
  ⟨((s.data.dropWhile isSpaceChar).reverse.dropWhile isSpaceChar).reverse⟩

/-! ## pkg/tool: values, schema and validator (src/pkg/tool/validator.go) -/

/-- A Go `interface{}` value as it appears in tool parameters.  Numbers are
split the way the validator's type switch splits them: machine integers
(`int`, `int64`, ...) versus floating-point values; a float is embedded as
the rational it denotes, which is exact for every finite float. -/
inductive Value where
  | str (s : String)
  | intV (n : Int)
  | floatV (q : ℚ)
  | boolV (b : Bool)
  | null
  | obj (fields : List (String × Value))
  | arr (elems : List Value)

/-- The `JSONSchema` from src/pkg/tool (part of part_011): the subset of JSON
Schema the registry requires.  `Properties` values are arbitrary decoded
JSON (`interface{}`), embedded as `Value`; the Go code additionally
accepts a `*JSONSchema` property definition, from which it only ever reads
the `Type` string — such a definition is represented here by the object
`Value.obj [("type", Value.str t)]` carrying the same type string. -/
structure JSONSchema where
  type_ : String
  properties : List (String × Value)
  required : List String

/-- The `extractExpectedType` from validator.go: a property definition that is
a JSON object with a string `"type"` entry yields that string, anything
else yields `""`. -/
def extractExpectedType (definition : Value) : String :=
  match definition with
  | .obj def_ =>
    match alookup "type" def_ with
    | some (.str v) => v
    | _ => ""
  | _ => ""

/-- The `isNumber` from validator.go: floats and all machine integer kinds. -/
def isNumber (value : Value) : Bool :=
  match value with
  | .floatV _ => true
  | .intV _ => true
  | _ => false

/-- The `isInteger` from validator.go: machine integers, and floats whose
truncation equals themselves (`math.Trunc(v) == v`, i.e. denominator 1). -/
def isInteger (value : Value) : Bool :=
  match value with
  | .intV _ => true
  | .floatV q => q.den = 1
  | _ => false

/-- The `validateType` from validator.go.  Returns `none` on success and the
error message otherwise; for `"object"` a `nil` value falls through to the
mismatch error exactly as the Go `break` does. -/
def validateType (value : Value) (expected : String) : Option String :=
  match expected with
  | "string" => match value with | .str _ => none | _ => some ("expected " ++ expected)
  | "number" => if isNumber value then none else some ("expected " ++ expected)
  | "integer" => if isInteger value then none else some ("expected " ++ expected)
  | "boolean" => match value with | .boolV _ => none | _ => some ("expected " ++ expected)
  | "object" => match value with
    | .null => some ("expected " ++ expected)
    | .obj _ => none
    | _ => some ("expected " ++ expected)
  | "array" => match value with | .arr _ => none | _ => some ("expected " ++ expected)
  | "null" => match value with | .null => none | _ => some ("expected " ++ expected)
  | _ => some ("unsupported schema type " ++ expected)

/-- The `for _, field := range schema.Required` loop of `Validate`:
first required field missing from `params` produces the error. -/
def checkRequired (required : List String) (params : List (String × Value)) :
    Option String :=
  match required with
  | [] => none
  | field :: rest =>
    if (alookup field params).isSome then checkRequired rest params
    else some ("missing required field: " ++ field)

/-- The `for key, value := range params` loop of `Validate`: each param
that names a declared property with a non-empty expected type must pass
`validateType`. -/
def checkProperties (params : List (String × Value))
    (properties : List (String × Value)) : Option String :=
  match params with
  | [] => none
  | (key, value) :: rest =>
    match alookup key properties with
    | none => checkProperties rest properties
    | some propDef =>
      let expected := extractExpectedType propDef
      if expected = "" then checkProperties rest properties
      else
        match validateType value expected with
        | some e => some ("field " ++ key ++ ": " ++ e)
        | none => checkProperties rest properties

/-- The `DefaultValidator.Validate` from validator.go: nil schema passes,
required fields are checked first, then (only when the schema declares
properties) each supplied param is type-checked against its property. -/
def Validate (params : List (String × Value)) (schema : Option JSONSchema) :
    Option String :=
  match schema with
  | none => none
  | some schema =>
    match checkRequired schema.required params with
    | some e => some e
    | none =>
      if schema.properties.isEmpty then none
      else checkProperties params schema.properties

/-! ## pkg/tool: registry (src/unnamed/part_011) -/

/-- The `ToolResult` as used by the registry (`Output`, `Success`). -/
structure ToolResult where
  output : String
  success : Bool
deriving DecidableEq

/-- The `Tool` interface: `Name()`, `Schema()` (nil-able) and
`Execute(ctx, params)`. -/
structure Tool where
  name : String
  schema : Option JSONSchema
  exec : List (String × Value) → Except String ToolResult

/-- The `Registry` from part_011: name → tool mapping plus the swappable
validator (`nil`-able interface, installed by `SetValidator`). -/
structure Registry where
  tools : List (String × Tool)
  validator : Option (List (String × Value) → Option JSONSchema → Option String)

/-- The `NewRegistry`: empty mapping backed by the default validator. -/
def NewRegistry : Registry :=
  { tools := [], validator := some Validate }

/-- The `Register` from part_011, returning the post-state of the receiver and
the error: a nil tool, an empty name, or a name already in use each fail
and leave the mapping untouched; otherwise the tool is inserted. -/
def Register (r : Registry) (tool : Option Tool) : Registry × Option String :=
  match tool with
  | none => (r, some "tool is nil")
  | some t =>
    if t.name = "" then (r, some "tool name is empty")
    else if (alookup t.name r.tools).isSome then
      (r, some ("tool " ++ t.name ++ " already registered"))
    else ({ r with tools := r.tools ++ [(t.name, t)] }, none)

/-- The `Get` from part_011. -/
def Registry.get (r : Registry) (name : String) : Except String Tool :=
  match alookup name r.tools with
  | some t => .ok t
  | none => .error ("tool " ++ name ++ " not found")

/-- The `Execute` from part_011: look the tool up, validate the params when
the tool declares a schema and a validator is installed, then run the
tool's body. -/
def Execute (r : Registry) (name : String) (params : List (String × Value)) :
    Except String ToolResult :=
  match Registry.get r name with
  | .error e => .error e
  | .ok tool =>
    match tool.schema with
    | some schema =>
      match r.validator with
      | some validator =>
        match validator params (some schema) with
        | some e => .error ("tool " ++ name ++ " validation failed: " ++ e)
        | none => tool.exec params
      | none => tool.exec params
    | none => tool.exec params

/-! ## pkg/session: MemorySession (src/unnamed/part_005)

Timestamps are naturals (`0` plays the role of Go's zero `time.Time`);
`ToolCalls` only matter to the Go code through deep cloning, which is
aliasing-only and invisible in a pure embedding, so messages carry their
identifying fields. -/

/-- The sentinel errors of pkg/session used by MemorySession. -/
inductive SessionErr where
  | invalidSessionID
  | invalidMessage
  | sessionClosed
  | invalidCheckpointName
  | checkpointNotFound (name : String)
deriving DecidableEq

/-- The `Message` from pkg/session, with `time.Time` embedded as `Nat`. -/
structure Message where
  id : String
  role : String
  content : String
  timestamp : Nat
deriving DecidableEq

/-- The `Filter` from pkg/session (`nil` time bounds become `none`). -/
structure Filter where
  startTime : Option Nat := none
  endTime : Option Nat := none
  role : String := ""
  limit : Int := 0
  offset : Int := 0

/-- The `MemorySession` state from part_005. -/
structure MemorySession where
  id : String
  messages : List Message
  checkpoints : List (String × List Message)
  seq : Nat
  closed : Bool
deriving DecidableEq

/-- The `NewMemorySession` from part_005: rejects blank identifiers. -/
def NewMemorySession (id : String) : Except SessionErr MemorySession :=
  let trimmed := trimSpace id
  if trimmed = "" then .error .invalidSessionID
  else .ok { id := trimmed, messages := [], checkpoints := [], seq := 0, closed := false }

/-- The `Append` from part_005: a blank role is rejected before the closed
check; then the sequence number advances, a missing ID and zero timestamp
are filled in, and the message joins the transcript. -/
def MemorySession.append (s : MemorySession) (now : Nat) (msg : Message) :
    Except SessionErr MemorySession :=
  if trimSpace msg.role = "" then .error .invalidMessage
  else if s.closed then .error .sessionClosed
  else
    let seq := s.seq + 1
    let msg := if msg.id = "" then { msg with id := s.id ++ "-" ++ toString seq } else msg
    let msg := if msg.timestamp = 0 then { msg with timestamp := now } else msg
    .ok { s with seq := seq, messages := s.messages ++ [msg] }

/-- The message loop of `List` from part_005: role and time-window
filters, then offset skipping, then the limit cut (`limit = 0` means
unlimited, mirroring the Go normalization of non-positive limits). -/
def listLoop (msgs : List Message) (role : String) (start? end? : Option Nat)
    (offset limit : Nat) : List Message :=
  match msgs with
  | [] => []
  | m :: rest =>
    if role ≠ "" ∧ m.role ≠ role then listLoop rest role start? end? offset limit
    else if start?.any (fun start => m.timestamp < start) then
      listLoop rest role start? end? offset limit
    else if end?.any (fun stop => m.timestamp > stop) then
      listLoop rest role start? end? offset limit
    else if 0 < offset then listLoop rest role start? end? (offset - 1) limit
    else if limit = 1 then [m]
    else m :: listLoop rest role start? end? 0 (limit - 1)

/-- The `List` from part_005: fails on a closed session, otherwise filters the
transcript (negative offset/limit are clamped to zero as in the Go code). -/
def MemorySession.list (s : MemorySession) (filter : Filter) :
    Except SessionErr (List Message) :=
  if s.closed then .error .sessionClosed
  else
    .ok (listLoop s.messages (trimSpace filter.role) filter.startTime filter.endTime
      filter.offset.toNat filter.limit.toNat)

/-- The `normalizeCheckpointName` from part_005. -/
def normalizeCheckpointName (name : String) : Except SessionErr String :=
  let trimmed := trimSpace name
  if trimmed = "" then .error .invalidCheckpointName else .ok trimmed

/-- The `Checkpoint` from part_005: name validation precedes the closed check;
a snapshot of the transcript is stored under the normalized name. -/
def MemorySession.checkpoint (s : MemorySession) (name : String) :
    Except SessionErr MemorySession :=
  match normalizeCheckpointName name with
  | .error e => .error e
  | .ok normalized =>
    if s.closed then .error .sessionClosed
    else .ok { s with checkpoints := upsert normalized s.messages s.checkpoints }

/-- The `Resume` from part_005: name validation, closed check, then the stored
snapshot replaces the transcript. -/
def MemorySession.resume (s : MemorySession) (name : String) :
    Except SessionErr MemorySession :=
  match normalizeCheckpointName name with
  | .error e => .error e
  | .ok normalized =>
    if s.closed then .error .sessionClosed
    else
      match alookup normalized s.checkpoints with
      | none => .error (.checkpointNotFound normalized)
      | some snapshot => .ok { s with messages := snapshot }

/-- The `Fork` from part_005: blank id validation, closed check, then a fresh
session cloning transcript and checkpoints, with `seq` restarted at the
transcript length. -/
def MemorySession.fork (s : MemorySession) (id : String) :
    Except SessionErr MemorySession :=
  let trimmed := trimSpace id
  if trimmed = "" then .error .invalidSessionID
  else if s.closed then .error .sessionClosed
  else
    .ok { id := trimmed, messages := s.messages, checkpoints := s.checkpoints,
          seq := s.messages.length, closed := false }

/-- The `Close` from part_005: the first call drops the transcript and
checkpoints and marks the session closed; any later call is a no-op
returning nil. -/
def MemorySession.close (s : MemorySession) : MemorySession × Option SessionErr :=
  if s.closed then (s, none)
  else ({ s with closed := true, messages := [], checkpoints := [] }, none)

/-! ## pkg/security: ApprovalQueue

The implementation of pkg/security's ApprovalQueue is not part of the
source tree; only its test file (src/pkg/security/approval_test.go) is.
The definitions below are therefore modelled from the spec (§3, §4.4),
with the record/operation shapes the test file exercises.  Time is a
`Nat` supplied to each operation (the test injects a fake clock). -/

/-- Decision states of an approval record (spec §3, `ApprovalState` in the
security test file). -/
inductive ApprovalState where
  | pending
  | approved
  | denied
deriving DecidableEq

/-- Modelled from the spec: the persistent `ApprovalRecord` entity of §3
with the fields the security package's test observes (`State`,
`AutoApproved`, `Paths`, `Approver`, `Reason`, `ApprovedAt`, `ExpiresAt`). -/
structure SecurityRecord where
  id : String
  sessionID : String
  command : String
  paths : List String
  state : ApprovalState
  autoApproved : Bool
  approver : String
  reason : String
  requested : Nat
  approvedAt : Option Nat := none
  deniedAt : Option Nat := none
  expiresAt : Option Nat := none
deriving DecidableEq

/-- Modelled from the spec (§6 collaborator: Sandbox, §4.4 `Request`):
path normalization produces a cleaned absolute path; the embedding keeps
cleaning abstract and makes the path absolute. -/
def normalizePath (p : String) : String :=
  if p.startsWith "/" then p else "/" ++ p

/-- Modelled from the spec: `ApprovalQueue` state of §2/§4.4 — the record
map keyed by ID, the in-memory whitelist mapping a session scope to an
expiry timestamp, and the ID generator's counter. -/
structure ApprovalQueue where
  records : List (String × SecurityRecord)
  whitelist : List (String × Nat)
  nextID : Nat
deriving DecidableEq

/-- Modelled from the spec: a fresh queue (`NewApprovalQueue` over an
empty store). -/
def NewApprovalQueue : ApprovalQueue :=
  { records := [], whitelist := [], nextID := 0 }

/-- The `IsWhitelisted` modelled from the spec §4.4: lazy expiry check — an
entry whose expiry has passed is treated as absent, so the scope is
whitelisted exactly when its stored expiry is still in the future. -/
def ApprovalQueue.isWhitelisted (q : ApprovalQueue) (now : Nat) (sessionID : String) :
    Bool :=
  match alookup sessionID q.whitelist with
  | some expiry => now < expiry
  | none => false

/-- The `Request` modelled from the spec §4.4: fails on a blank session ID or
command leaving the queue untouched; otherwise normalizes the non-empty
path parameters, and creates the record auto-approved when the whitelist
covers the session (reason noting "whitelisted") or Pending otherwise.
Returns the post-state and the created record or the validation error. -/
def ApprovalQueue.request (q : ApprovalQueue) (now : Nat) (sessionID command : String)
    (paths : List String) : ApprovalQueue × Except String SecurityRecord :=
  if trimSpace sessionID = "" then (q, .error "approval: session id is required")
  else if trimSpace command = "" then (q, .error "approval: command is required")
  else
    let id := "approval-" ++ toString q.nextID
    let normalized := (paths.filter (fun p => trimSpace p ≠ "")).map normalizePath
    let rec_ : SecurityRecord :=
      if q.isWhitelisted now sessionID then
        { id := id, sessionID := sessionID, command := command, paths := normalized,
          state := .approved, autoApproved := true, approver := "",
          reason := "whitelisted session", requested := now, approvedAt := some now }
      else
        { id := id, sessionID := sessionID, command := command, paths := normalized,
          state := .pending, autoApproved := false, approver := "", reason := "",
          requested := now }
    ({ q with records := q.records ++ [(id, rec_)], nextID := q.nextID + 1 }, .ok rec_)

/-- The `Approve` modelled from the spec §4.4: unknown IDs and records no
longer Pending fail with the state of the queue untouched; on success the
record becomes Approved with approver and timestamp, and a positive TTL
installs/refreshes the session's whitelist entry with expiry now+ttl. -/
def ApprovalQueue.approve (q : ApprovalQueue) (now : Nat) (id approver : String)
    (ttl : Nat) : ApprovalQueue × Except String SecurityRecord :=
  match alookup id q.records with
  | none => (q, .error "approval: not found")
  | some rec_ =>
    if rec_.state ≠ ApprovalState.pending then (q, .error "approval: already decided")
    else
      let expires := if 0 < ttl then some (now + ttl) else none
      let updated := { rec_ with
        state := .approved, approver := approver,
        approvedAt := some now, expiresAt := expires }
      let whitelist :=
        if 0 < ttl then upsert rec_.sessionID (now + ttl) q.whitelist else q.whitelist
      ({ q with records := upsert id updated q.records, whitelist := whitelist },
       .ok updated)

/-- The `Deny` modelled from the spec §4.4: symmetric to Approve — fails on
unknown IDs and on records no longer Pending, otherwise records the
denial with approver and reason. -/
def ApprovalQueue.deny (q : ApprovalQueue) (now : Nat) (id approver reason : String) :
    ApprovalQueue × Except String SecurityRecord :=
  match alookup id q.records with
  | none => (q, .error "approval: not found")
  | some rec_ =>
    if rec_.state ≠ ApprovalState.pending then (q, .error "approval: already decided")
    else
      let updated := { rec_ with
        state := .denied, approver := approver,
        reason := reason, deniedAt := some now }
      ({ q with records := upsert id updated q.records }, .ok updated)

/-- The `ListPending` modelled from the spec §4.4: the Pending records (the
embedding is pure, so the clone the Go code makes is implicit). -/
def ApprovalQueue.listPending (q : ApprovalQueue) : List SecurityRecord :=
  (q.records.filter (fun kv => kv.2.state = ApprovalState.pending)).map (·.2)

/-! ## pkg/approval: RecordLog and Queue

The implementation of pkg/approval is not part of the source tree; only
its integration tests are (src/unnamed/part_002, part_003).  The
definitions below are modelled from the spec (§2, §3, §4.4, §6): the
RecordLog is an append-only durable log ("achievable via append-only
logging"), reconstruction folds the log keeping the last persisted
version of each record, and the whitelist scope key is (session, tool) —
the tests show the same session with a different tool is not covered.
Record IDs are the generator's counter values ("ID (unique,
generator-assigned)"). -/

/-- The `Decision` of pkg/approval (`DecisionPending` / `DecisionApproved` /
`DecisionDenied` in the integration tests). -/
inductive Decision where
  | pending
  | approved
  | denied
deriving DecidableEq

/-- Modelled from the spec: the persistent `ApprovalRecord` of §3 in its
pkg/approval shape (`ID`, `SessionID`, `Tool`, `Params`, `Decision`,
`Requested`, `Comment`, `Auto`) plus the approval expiry persisted so that
recovery can rebuild the whitelist. -/
structure Record where
  id : Nat
  sessionID : String
  tool : String
  params : List (String × Value)
  decision : Decision
  requested : Nat
  comment : String
  auto : Bool
  approvedAt : Option Nat := none
  deniedAt : Option Nat := none
  expiresAt : Option Nat := none

/-- Modelled from the spec §6: the durable store behind an ApprovalQueue,
encoded as the chronological sequence of persisted record versions. -/
structure RecordLog where
  entries : List Record

/-- Modelled from the spec: `NewRecordLog` over a fresh directory. -/
def NewRecordLog : RecordLog := { entries := [] }

/-- Appending one persisted record version to the log. -/
def RecordLog.append (log : RecordLog) (r : Record) : RecordLog :=
  { entries := log.entries ++ [r] }

/-- One step of log reconstruction: a version of an already-seen record
replaces it in place, a new record is appended. -/
def applyEntry (acc : List Record) (r : Record) : List Record :=
  if acc.any (fun x => x.id = r.id) then
    acc.map (fun x => if x.id = r.id then r else x)
  else acc ++ [r]

/-- Modelled from the spec §6: idempotent reconstruction of the full
record set from the log — last persisted version per ID, in first-seen
order. -/
def reconstruct (entries : List Record) : List Record :=
  entries.foldl applyEntry []

/-- Modelled from the spec §3: a whitelist entry activates auto-approval
while its expiry is still in the future. -/
def wlActive (wl : List ((String × String) × Nat)) (now : Nat)
    (key : String × String) : Bool :=
  match alookup key wl with
  | some expiry => now < expiry
  | none => false

/-- One record's contribution to the recovered whitelist: an approval
whose persisted expiry is still in the future reinstalls its scope entry. -/
def derStep (now : Nat) (wl : List ((String × String) × Nat)) (r : Record) :
    List ((String × String) × Nat) :=
  match r.decision, r.expiresAt with
  | .approved, some e => if now < e then upsert (r.sessionID, r.tool) e wl else wl
  | _, _ => wl

/-- Modelled from the spec §4.4 recovery: the whitelist rebuilt from the
reconstructed records — every approval that granted a still-unexpired TTL
reinstalls its scope entry. -/
def deriveWhitelist (records : List Record) (now : Nat) :
    List ((String × String) × Nat) :=
  records.foldl (derStep now) []

/-- Modelled from the spec: pkg/approval's `Queue` — durable store,
in-memory record map, whitelist, and the ID generator counter. -/
structure Queue where
  store : RecordLog
  records : List Record
  whitelist : List ((String × String) × Nat)
  nextID : Nat

/-- Modelled from the spec §4.4 recovery: `NewQueue(store, NewWhitelist())`
reconstructs every record as last persisted and enough whitelist state to
answer `IsWhitelisted` for approvals with still-unexpired TTLs.  The ID
counter resumes past every ID the log can contain. -/
def NewQueue (store : RecordLog) (now : Nat) : Queue :=
  { store := store
    records := reconstruct store.entries
    whitelist := deriveWhitelist (reconstruct store.entries) now
    nextID := store.entries.length }

/-- The `IsWhitelisted` for a (session, tool) scope (spec §4.4, lazy expiry). -/
def Queue.isWhitelisted (q : Queue) (now : Nat) (sessionID tool : String) : Bool :=
  wlActive q.whitelist now (sessionID, tool)

/-- The record a `Request` creates (spec §4.4): Approved with `Auto=true`
and the whitelisted reason when the scope is covered, Pending otherwise. -/
def Queue.requestRecord (q : Queue) (now : Nat) (sessionID tool : String)
    (params : List (String × Value)) : Record :=
  if q.isWhitelisted now sessionID tool then
    { id := q.nextID, sessionID := sessionID, tool := tool, params := params,
      decision := .approved, requested := now, comment := "whitelisted",
      auto := true, approvedAt := some now }
  else
    { id := q.nextID, sessionID := sessionID, tool := tool, params := params,
      decision := .pending, requested := now, comment := "", auto := false }

/-- The `Request` modelled from the spec §4.4: blank session or tool fails
with the queue untouched; otherwise the created record (auto-approved or
Pending per `requestRecord`) is persisted to the log before returning. -/
def Queue.request (q : Queue) (now : Nat) (sessionID tool : String)
    (params : List (String × Value)) : Queue × Except String (Record × Bool) :=
  if trimSpace sessionID = "" then (q, .error "approval: session id is required")
  else if trimSpace tool = "" then (q, .error "approval: tool is required")
  else
    let rec_ := q.requestRecord now sessionID tool params
    ({ q with
        store := q.store.append rec_
        records := q.records ++ [rec_]
        nextID := q.nextID + 1 },
     .ok (rec_, q.isWhitelisted now sessionID tool))

/-- The `Approve` modelled from the spec §4.4: fails when the ID is unknown or
the record is no longer Pending; on success the update is persisted and a
positive TTL installs/refreshes the whitelist entry for the record's
scope with expiry now+ttl. -/
def Queue.approve (q : Queue) (now : Nat) (id : Nat) (approver : String)
    (ttl : Nat) : Queue × Except String Record :=
  match q.records.find? (fun r => r.id = id) with
  | none => (q, .error "approval: not found")
  | some rec_ =>
    if rec_.decision ≠ Decision.pending then (q, .error "approval: already decided")
    else
      let updated := { rec_ with
        decision := .approved, comment := approver,
        approvedAt := some now,
        expiresAt := if 0 < ttl then some (now + ttl) else none }
      let whitelist :=
        if 0 < ttl then upsert (rec_.sessionID, rec_.tool) (now + ttl) q.whitelist
        else q.whitelist
      ({ q with
          store := q.store.append updated
          records := q.records.map (fun x => if x.id = id then updated else x)
          whitelist := whitelist },
       .ok updated)

/-- The `Deny` modelled from the spec §4.4: symmetric to Approve. -/
def Queue.deny (q : Queue) (now : Nat) (id : Nat) (approver : String) :
    Queue × Except String Record :=
  match q.records.find? (fun r => r.id = id) with
  | none => (q, .error "approval: not found")
  | some rec_ =>
    if rec_.decision ≠ Decision.pending then (q, .error "approval: already decided")
    else
      let updated := { rec_ with
        decision := .denied, comment := approver, deniedAt := some now }
      ({ q with
          store := q.store.append updated
          records := q.records.map (fun x => if x.id = id then updated else x) },
       .ok updated)

/-- The `Pending(sessionID)` of pkg/approval: the session's Pending records. -/
def Queue.pendingFor (q : Queue) (sessionID : String) : List Record :=
  q.records.filter (fun r => r.sessionID = sessionID ∧ r.decision = Decision.pending)

/-- The durability invariant a pkg/approval queue maintains: the in-memory
record map is exactly the reconstruction of the durable log, and the ID
generator is ahead of every persisted ID (so fresh IDs never collide)
while never exceeding the log length (so recovery restarts it safely). -/
def QueueInv (q : Queue) : Prop :=
  q.records = reconstruct q.store.entries ∧
  (∀ r ∈ q.store.entries, r.id < q.nextID) ∧
  q.nextID ≤ q.store.entries.length

/-- Modelled from the spec §4.4: `Close()` flushes the RecordLog; the
durable contents a later `NewQueue` sees are exactly the log. -/
def Queue.close (q : Queue) : RecordLog := q.store

/-! ## pkg/workflow: Graph, Executor, Middleware

The pkg/workflow implementation is not part of the source tree either
(only the Middleware interface in src/unnamed/part_013 and the
integration tests are).  The Graph/Executor semantics below are modelled
from the spec §4.1: start at the first node added, run the node body,
then take the first transition out of the node (in registration order)
whose condition is true; a node with no satisfied transition is terminal.
Termination of the embedding is by explicit fuel — the spec's executor
enforces no iteration cap, and every claim is settled with enough fuel. -/

/-- The `ExecutionContext` data: the shared key/value store (spec §3).  The
mutual-exclusion lock guards Go-level data races and has no pure
counterpart; operations act atomically on the list. -/
def ExecutionContext := List (String × Value)

/-- The `ctx.Get` followed by the `val.(int)` type assertion defaulting to 0,
as the integration test's node bodies and conditions do. -/
def getInt (ctx : ExecutionContext) (key : String) : Int :=
  match alookup key ctx with
  | some (.intV n) => n
  | _ => 0

/-- The `Condition` from pkg/workflow. -/
def Condition := ExecutionContext → Except String Bool

/-- The `workflow.Always()`. -/
def Always : Condition := fun _ => .ok true

/-- The `Transition` from the spec §3: (fromNode, toNode, condition). -/
structure Transition where
  fromNode : String
  toNode : String
  cond : Condition

/-- Modelled from the spec: a Graph of named Action nodes (bodies mutate
the ExecutionContext or fail) and registered transitions, in registration
order. -/
structure Graph where
  nodes : List (String × (ExecutionContext → Except String ExecutionContext))
  transitions : List Transition

/-- Modelled from the spec §3: transitions sharing a `fromNode` are
evaluated in registration order and the first whose condition evaluates
true is taken; a condition error propagates. -/
def firstMatch (ts : List Transition) (ctx : ExecutionContext) :
    Except String (Option String) :=
  match ts with
  | [] => .ok none
  | t :: rest =>
    match t.cond ctx with
    | .error e => .error e
    | .ok true => .ok (some t.toNode)
    | .ok false => firstMatch rest ctx

/-- Modelled from the spec §4.1: one walk of the executor — run the body
of the current node, evaluate its outgoing transitions in registration
order, move to the matched target or stop; the visited-node trace is
accumulated.  `fuel` bounds the embedding's recursion only. -/
def runFrom (g : Graph) (fuel : Nat) (name : String) (ctx : ExecutionContext)
    (trace : List String) : Except String (List String × ExecutionContext) :=
  match fuel with
  | 0 => .error "executor: fuel exhausted"
  | fuel + 1 =>
    match alookup name g.nodes with
    | none => .error ("executor: unknown node " ++ name)
    | some body =>
      match body ctx with
      | .error e => .error e
      | .ok ctx' =>
        match firstMatch (g.transitions.filter (fun t => t.fromNode = name)) ctx' with
        | .error e => .error e
        | .ok none => .ok (trace ++ [name], ctx')
        | .ok (some next) => runFrom g fuel next ctx' (trace ++ [name])

/-- Modelled from the spec §4.1: `Executor.Run` starts at the graph's
entry node — the first node added. -/
def Executor.run (g : Graph) (fuel : Nat) (ctx : ExecutionContext) :
    Except String (List String × ExecutionContext) :=
  match g.nodes with
  | [] => .error "executor: empty graph"
  | (entry, _) :: _ => runFrom g fuel entry ctx []

/-- The looping graph of TestStateGraphComplexFlow (src/unnamed/part_002),
restricted to the loop the claim is about: a `counter` node incrementing
`count`, a self-loop guarded by `count < 3` registered before the exit
transition to `gate` guarded by `count >= 3`. -/
def loopGraph : Graph :=
  { nodes :=
      [("counter", fun ctx => .ok (upsert "count" (Value.intV (getInt ctx "count" + 1)) ctx)),
       ("gate", fun ctx => .ok (upsert "gate" (Value.boolV true) ctx))]
    transitions :=
      [{ fromNode := "counter", toNode := "counter",
         cond := fun ctx => .ok (decide (getInt ctx "count" < 3)) },
       { fromNode := "counter", toNode := "gate",
         cond := fun ctx => .ok (decide (3 ≤ getInt ctx "count")) }] }

/-! ### Parallel fan-out (spec §4.1, §5) for the two-branch scenario

Parallel branches run concurrently with no ordering guarantee relative to
each other; the join is the only synchronization point.  The embedding
quantifies over every interleaving of the two branches' event sequences,
with the join node's events after them (the Executor waits for all
spawned tasks before continuing). -/

/-- An observable event of a parallel run: a middleware Before hook, the
node body, or a middleware After hook, for a named node. -/
inductive ParEvent where
  | beforeHook (node : String)
  | body (node : String)
  | afterHook (node : String)
deriving DecidableEq

/-- The event sequence of one branch's sub-walk over its single node:
Before hook, body, After hook (spec §4.1 step order). -/
def branchTrace (node : String) : List ParEvent :=
  [.beforeHook node, .body node, .afterHook node]

/-- The `Interleave l r t`: `t` is an arbitrary interleaving of `l` and `r`
preserving each side's order — the possible schedules of two concurrent
branches. -/
inductive Interleave {α : Type} : List α → List α → List α → Prop where
  | nil : Interleave [] [] []
  | left {x : α} {xs ys zs : List α} :
      Interleave xs ys zs → Interleave (x :: xs) ys (x :: zs)
  | right {y : α} {xs ys zs : List α} :
      Interleave xs ys zs → Interleave xs (y :: ys) (y :: zs)

/-- The effect of one event on the shared counter in the scenario: the
`left` and `right` branch bodies each increment it (atomically, under the
ExecutionContext lock); hooks and other bodies leave it unchanged. -/
def applyParEvent (counter : Nat) (e : ParEvent) : Nat :=
  match e with
  | .body n => if n = "left" ∨ n = "right" then counter + 1 else counter
  | _ => counter

/-- Whether an event is a branch-body increment of the scenario. -/
def isIncrement (e : ParEvent) : Bool :=
  match e with
  | .body n => n = "left" ∨ n = "right"
  | _ => false

/-! ### Middleware (src/unnamed/part_013) and the hook pipeline -/

/-- The `Step` from pkg/workflow: the value identifying the node being
entered/exited (spec §3). -/
structure Step where
  name : String
deriving DecidableEq

/-- The `Middleware` interface exactly as declared in src/unnamed/part_013:
`BeforeStep(name string) error` and `AfterStep(name string) error` — each
hook receives only the step name (`Option String` is the returned error). -/
structure Middleware where
  beforeStep : String → Option String
  afterStep : String → Option String

/-- The `BeforeStep` invoked through the hook-call shape the spec's pipeline
describes: of (ctx, step) the interface can only receive the step name. -/
def invokeBeforeStep (m : Middleware) (ctx : ExecutionContext) (step : Step) :
    Option String :=
  m.beforeStep step.name

/-- The `AfterStep` invoked through the hook-call shape the spec's pipeline
describes: of (ctx, step, err) the interface can only receive the step
name. -/
def invokeAfterStep (m : Middleware) (ctx : ExecutionContext) (step : Step)
    (stepErr : Option String) : Option String :=
  m.afterStep step.name

/-- An observable hook-pipeline event: the Before or After hook of the
middleware at a pipeline position, or the node body between them. -/
inductive HookEvent where
  | beforeHook (i : Nat)
  | nodeBody
  | afterHook (i : Nat)
deriving DecidableEq

/-- Modelled from the spec §4.2: the middleware pipeline around one node
visit — the last-registered middleware wraps innermost, so each pipeline
frame runs its Before hook, the rest of the chain around the body, then
its After hook; a failing Before hook aborts the frames not yet entered
while already-entered frames still unwind through their After hooks. -/
def runStepChain (mws : List (Nat × Middleware)) (name : String) :
    List HookEvent × Option String :=
  match mws with
  | [] => ([.nodeBody], none)
  | (i, m) :: rest =>
    match m.beforeStep name with
    | some e => ([.beforeHook i], some e)
    | none =>
      let inner := runStepChain rest name
      ([.beforeHook i] ++ inner.1 ++ [.afterHook i], inner.2)

/-! ## Concrete fixtures used by witnesses -/

/-- A schema-less echo tool, as the tests register. -/
def echoTool : Tool :=
  { name := "echo", schema := none,
    exec := fun _ => .ok { output := "pong", success := true } }

/-- A registry already holding the echo tool under its name. -/
def regOne : Registry :=
  { tools := [("echo", echoTool)], validator := none }

/-- A fresh open session with id "chat", as `NewMemorySession "chat"`
returns. -/
def freshChat : MemorySession :=
  { id := "chat", messages := [], checkpoints := [], seq := 0, closed := false }

/-! # Theorems -/

/-! ## Association-list lemmas -/

theorem alookup_upsert_self {α β : Type} [DecidableEq α] (k : α) (v : β)
    (l : List (α × β)) : alookup k (upsert k v l) = some v := by
  induction l with
  | nil => simp [upsert, alookup]
  | cons hd tl ih =>
    obtain ⟨k', v'⟩ := hd
    by_cases h : k' = k
    · simp [upsert, alookup, h]
    · simp [upsert, alookup, h, ih]

theorem alookup_upsert_ne {α β : Type} [DecidableEq α] {k k' : α} (h : k' ≠ k)
    (v : β) (l : List (α × β)) : alookup k' (upsert k v l) = alookup k' l := by
  induction l with
  | nil =>
    have hk : k ≠ k' := fun hh => h hh.symm
    simp [upsert, alookup, hk]
  | cons hd tl ih =>
    obtain ⟨k₀, v₀⟩ := hd
    by_cases h₀ : k₀ = k
    · have hk : k ≠ k' := fun hh => h hh.symm
      simp [upsert, alookup, h₀, hk]
    · by_cases h₁ : k₀ = k'
      · simp [upsert, alookup, h₀, h₁, h]
      · simp [upsert, alookup, h₀, h₁, ih]

/-! ## C6: Request input validation (security ApprovalQueue) -/

/-- C6: `Request(sessionID, tool, params)` fails with a validation error
whenever the session ID or the command is blank, returning the error to
the caller with the queue state unchanged — no record is created or
persisted. -/
theorem C6_request_validation (q : ApprovalQueue) (now : Nat)
    (sessionID command : String) (paths : List String)
    (h : trimSpace sessionID = "" ∨ trimSpace command = "") :
    ∃ e, q.request now sessionID command paths = (q, Except.error e) := by
  rcases h with h | h
  · exact ⟨"approval: session id is required", by simp [ApprovalQueue.request, h]⟩
  · by_cases hs : trimSpace sessionID = ""
    · exact ⟨"approval: session id is required", by simp [ApprovalQueue.request, hs]⟩
    · exact ⟨"approval: command is required", by simp [ApprovalQueue.request, hs, h]⟩

/-- Witness for C6 at a blank session ID and at a whitespace-only command. -/
theorem C6_request_validation_witness :
    (trimSpace "" = "" ∨ trimSpace "ls" = "") ∧
      (∃ e, NewApprovalQueue.request 3 "" "ls" [] = (NewApprovalQueue, Except.error e)) ∧
      (trimSpace "sess" = "" ∨ trimSpace "   " = "") ∧
      (∃ e, NewApprovalQueue.request 3 "sess" "   " [] = (NewApprovalQueue, Except.error e)) :=
  ⟨Or.inl rfl,
   C6_request_validation NewApprovalQueue 3 "" "ls" [] (Or.inl rfl),
   Or.inr rfl,
   C6_request_validation NewApprovalQueue 3 "sess" "   " [] (Or.inr rfl)⟩

/-! ## C8: duplicate/invalid tool registration -/

/-- C8: `Register` fails and leaves the registry's tool mapping unchanged
when the tool's name is already registered, when the tool is nil, and
when the tool's name is empty. -/
theorem C8_register_conflicts (r : Registry) (t : Tool) :
    ((alookup t.name r.tools).isSome →
        (Register r (some t)).1 = r ∧ ((Register r (some t)).2).isSome) ∧
      Register r none = (r, some "tool is nil") ∧
      (t.name = "" → Register r (some t) = (r, some "tool name is empty")) := by
  refine ⟨?_, rfl, ?_⟩
  · intro hdup
    by_cases hn : t.name = ""
    · simp [Register, hn]
    · simp [Register, hn, hdup]
  · intro hn
    simp [Register, hn]

/-- Witness for C8: registering the echo tool twice fails and keeps the
mapping, and registering nil fails. -/
theorem C8_register_conflicts_witness :
    (alookup echoTool.name regOne.tools).isSome ∧
      ((Register regOne (some echoTool)).1 = regOne ∧
        ((Register regOne (some echoTool)).2).isSome) ∧
      Register regOne none = (regOne, some "tool is nil") :=
  ⟨rfl, (C8_register_conflicts regOne echoTool).1 rfl,
   (C8_register_conflicts regOne echoTool).2.1⟩

/-! ## C4: first-match transition order and the 3-visit loop -/

/-- C4: outgoing transitions are evaluated in strict registration order
with the first true condition taken — if position `i` is the first whose
condition evaluates true, the walk moves to its target — and on the
concrete counting graph (self-loop guarded by count < 3 registered before
the exit guarded by count >= 3, started at count = 0) the executor visits
the counting node exactly 3 times and then takes the exit transition to
the gate node. -/
theorem C4_transition_order :
    (∀ (ts : List Transition) (ctx : ExecutionContext) (i : Nat) (hi : i < ts.length),
        (ts.get ⟨i, hi⟩).cond ctx = Except.ok true →
        (∀ j (hj : j < i), (ts.get ⟨j, Nat.lt_trans hj hi⟩).cond ctx = Except.ok false) →
        firstMatch ts ctx = Except.ok (some (ts.get ⟨i, hi⟩).toNode)) ∧
      Executor.run loopGraph 10 [("count", Value.intV 0)] =
        Except.ok (["counter", "counter", "counter", "gate"],
          [("count", Value.intV 3), ("gate", Value.boolV true)]) ∧
      (["counter", "counter", "counter", "gate"].count "counter" = 3) := by
  refine ⟨?_, by rfl, by rfl⟩
  intro ts
  induction ts with
  | nil => intro ctx i hi; exact absurd hi (by simp)
  | cons t rest ih =>
    intro ctx i hi htrue hprev
    cases i with
    | zero =>
      simp only [List.get] at htrue ⊢
      simp [firstMatch, htrue]
    | succ k =>
      have h0 : t.cond ctx = Except.ok false := hprev 0 (Nat.succ_pos k)
      simp only [List.get] at htrue ⊢
      simp only [firstMatch, h0]
      exact ih ctx k (Nat.lt_of_succ_lt_succ hi) htrue
        (fun j hj => hprev (j + 1) (Nat.succ_lt_succ hj))

/-- Witness for C4's generic part: on the counting graph's transition
list with count = 3, the self-loop condition is false and the exit
transition (position 1) is the first match. -/
theorem C4_transition_order_witness :
    ((loopGraph.transitions.get ⟨1, by decide⟩).cond [("count", Value.intV 3)] =
        Except.ok true) ∧
      (∀ j (hj : j < 1),
        (loopGraph.transitions.get ⟨j, Nat.lt_trans hj (by decide)⟩).cond
            [("count", Value.intV 3)] = Except.ok false) ∧
      firstMatch loopGraph.transitions [("count", Value.intV 3)] =
        Except.ok (some (loopGraph.transitions.get ⟨1, by decide⟩).toNode) := by
  refine ⟨rfl, ?_, ?_⟩
  · intro j hj
    match j, hj with
    | 0, _ => exact rfl
  · exact C4_transition_order.1 loopGraph.transitions [("count", Value.intV 3)] 1
      (by decide) rfl (fun j hj => by
        match j, hj with
        | 0, _ => exact rfl)

/-! ## C5: parallel branches — counter and join ordering -/

theorem interleave_countP {α : Type} (p : α → Bool) {xs ys zs : List α}
    (h : Interleave xs ys zs) : zs.countP p = xs.countP p + ys.countP p := by
  induction h with
  | nil => simp
  | left h ih => simp only [List.countP_cons, ih]; omega
  | right h ih => simp only [List.countP_cons, ih]; omega

theorem interleave_mem {α : Type} {xs ys zs : List α} (h : Interleave xs ys zs) :
    ∀ a, (a ∈ xs → a ∈ zs) ∧ (a ∈ ys → a ∈ zs) ∧ (a ∈ zs → a ∈ xs ∨ a ∈ ys) := by
  induction h with
  | nil => simp
  | left h ih =>
    intro a
    refine ⟨fun ha => ?_, fun ha => ?_, fun ha => ?_⟩
    · rcases List.mem_cons.mp ha with h1 | h1
      · exact h1 ▸ List.mem_cons_self _ _
      · exact List.mem_cons_of_mem _ ((ih a).1 h1)
    · exact List.mem_cons_of_mem _ ((ih a).2.1 ha)
    · rcases List.mem_cons.mp ha with h1 | h1
      · exact Or.inl (h1 ▸ List.mem_cons_self _ _)
      · rcases (ih a).2.2 h1 with h2 | h2
        · exact Or.inl (List.mem_cons_of_mem _ h2)
        · exact Or.inr h2
  | right h ih =>
    intro a
    refine ⟨fun ha => ?_, fun ha => ?_, fun ha => ?_⟩
    · exact List.mem_cons_of_mem _ ((ih a).1 ha)
    · rcases List.mem_cons.mp ha with h1 | h1
      · exact h1 ▸ List.mem_cons_self _ _
      · exact List.mem_cons_of_mem _ ((ih a).2.1 h1)
    · rcases List.mem_cons.mp ha with h1 | h1
      · exact Or.inr (h1 ▸ List.mem_cons_self _ _)
      · rcases (ih a).2.2 h1 with h2 | h2
        · exact Or.inl h2
        · exact Or.inr (List.mem_cons_of_mem _ h2)

theorem foldl_applyParEvent (t : List ParEvent) :
    ∀ c, t.foldl applyParEvent c = c + t.countP isIncrement := by
  induction t with
  | nil => intro c; simp
  | cons e rest ih =>
    intro c
    have he : applyParEvent c e = c + (if isIncrement e then 1 else 0) := by
      cases e with
      | body n =>
        by_cases hn : n = "left" ∨ n = "right" <;>
          simp [applyParEvent, isIncrement, hn]
      | beforeHook n => simp [applyParEvent, isIncrement]
      | afterHook n => simp [applyParEvent, isIncrement]
    rw [List.foldl_cons, he, ih, List.countP_cons]
    omega

/-- C5: for every interleaving `t` of the two branches' event sequences,
the full run (the interleaving followed by the join node's events,
because the Executor waits for all branches before moving on) increments
the shared counter exactly twice, runs each branch body exactly once, and
fires both branches' After-hooks strictly before the join node's
Before-hook. -/
theorem C5_parallel_branches (t run : List ParEvent)
    (hI : Interleave (branchTrace "left") (branchTrace "right") t)
    (hrun : run = t ++ branchTrace "done") :
    run.foldl applyParEvent 0 = 2 ∧
      run.countP (fun e => e = ParEvent.body "left") = 1 ∧
      run.countP (fun e => e = ParEvent.body "right") = 1 ∧
      run.indexOf (ParEvent.afterHook "left") <
        run.indexOf (ParEvent.beforeHook "done") ∧
      run.indexOf (ParEvent.afterHook "right") <
        run.indexOf (ParEvent.beforeHook "done") := by
  subst hrun
  have hcnt := interleave_countP isIncrement hI
  have hL := interleave_countP (fun e => e = ParEvent.body "left") hI
  have hR := interleave_countP (fun e => e = ParEvent.body "right") hI
  have hmemL : ParEvent.afterHook "left" ∈ t :=
    (interleave_mem hI (ParEvent.afterHook "left")).1 (by decide)
  have hmemR : ParEvent.afterHook "right" ∈ t :=
    (interleave_mem hI (ParEvent.afterHook "right")).2.1 (by decide)
  have hnb : ParEvent.beforeHook "done" ∉ t := by
    intro hmem
    rcases (interleave_mem hI (ParEvent.beforeHook "done")).2.2 hmem with h1 | h1
    · exact absurd h1 (by decide)
    · exact absurd h1 (by decide)
  have hidx : (t ++ branchTrace "done").indexOf (ParEvent.beforeHook "done") =
      t.length := by
    rw [List.indexOf_append_of_not_mem hnb]
    simp [branchTrace, List.indexOf_cons_self]
  refine ⟨?_, ?_, ?_, ?_, ?_⟩
  · rw [List.foldl_append, foldl_applyParEvent, foldl_applyParEvent, hcnt]
    decide
  · rw [List.countP_append, hL]
    decide
  · rw [List.countP_append, hR]
    decide
  · rw [hidx, List.indexOf_append_of_mem hmemL]
    exact List.indexOf_lt_length.mpr hmemL
  · rw [hidx, List.indexOf_append_of_mem hmemR]
    exact List.indexOf_lt_length.mpr hmemR

/-- Witness for C5 on the schedule that runs the left branch to
completion first. -/
theorem C5_parallel_branches_witness :
    Interleave (branchTrace "left") (branchTrace "right")
        (branchTrace "left" ++ branchTrace "right") ∧
      ((branchTrace "left" ++ branchTrace "right") ++ branchTrace "done").foldl
          applyParEvent 0 = 2 ∧
      (((branchTrace "left" ++ branchTrace "right") ++ branchTrace "done").indexOf
          (ParEvent.afterHook "left") <
        ((branchTrace "left" ++ branchTrace "right") ++ branchTrace "done").indexOf
          (ParEvent.beforeHook "done")) := by
  have hI : Interleave (branchTrace "left") (branchTrace "right")
      (branchTrace "left" ++ branchTrace "right") := by
    simp only [branchTrace, List.cons_append, List.nil_append]
    repeat constructor
  have h := C5_parallel_branches _ _ hI rfl
  exact ⟨hI, h.1, h.2.2.2.1⟩

/-! ## C7: middleware hook shape and pipeline order -/

/-- Counterexample to C7 as stated: through the `Middleware` interface of
src/unnamed/part_013 a hook cannot observe the ExecutionContext, and
`AfterStep` cannot observe the step's error — the interface methods
receive only the step name, so no middleware's hook result can depend on
the context or on the error. -/
theorem C7_counterexample :
    (¬ ∃ (m : Middleware) (ctx₁ ctx₂ : ExecutionContext) (step : Step),
        invokeBeforeStep m ctx₁ step ≠ invokeBeforeStep m ctx₂ step) ∧
      (¬ ∃ (m : Middleware) (ctx : ExecutionContext) (step : Step)
          (e₁ e₂ : Option String),
          invokeAfterStep m ctx step e₁ ≠ invokeAfterStep m ctx step e₂) := by
  constructor
  · rintro ⟨m, c₁, c₂, st, hne⟩
    exact hne rfl
  · rintro ⟨m, c, st, e₁, e₂, hne⟩
    exact hne rfl

/-- C7 (amended): every middleware exposes `BeforeStep(name string) error`
and `AfterStep(name string) error` — both hooks receive only the step's
name — and around every node visit the pipeline fires Before-hooks in
registration order and After-hooks in reverse registration order (the
last-registered middleware wraps innermost). -/
theorem C7_pipeline_hook_order (mws : List (Nat × Middleware)) (name : String)
    (h : ∀ p ∈ mws, p.2.beforeStep name = none) :
    runStepChain mws name =
      (mws.map (fun p => HookEvent.beforeHook p.1) ++ [HookEvent.nodeBody] ++
        (mws.reverse.map (fun p => HookEvent.afterHook p.1)), none) := by
  induction mws with
  | nil => simp [runStepChain]
  | cons p rest ih =>
    obtain ⟨i, m⟩ := p
    have hm : m.beforeStep name = none := h (i, m) (List.mem_cons_self _ _)
    have hrest : ∀ p ∈ rest, p.2.beforeStep name = none :=
      fun p hp => h p (List.mem_cons_of_mem _ hp)
    simp [runStepChain, hm, ih hrest]

/-- A middleware whose hooks always succeed. -/
def passMW : Middleware :=
  { beforeStep := fun _ => none, afterStep := fun _ => none }

/-- Witness for C7's amended pipeline order with two middlewares. -/
theorem C7_pipeline_hook_order_witness :
    (∀ p ∈ [(0, passMW), (1, passMW)], p.2.beforeStep "entry" = none) ∧
      runStepChain [(0, passMW), (1, passMW)] "entry" =
        ([HookEvent.beforeHook 0, HookEvent.beforeHook 1, HookEvent.nodeBody,
          HookEvent.afterHook 1, HookEvent.afterHook 0], none) := by
  have hpre : ∀ p ∈ [(0, passMW), (1, passMW)], p.2.beforeStep "entry" = none := by
    intro p hp
    rcases List.mem_cons.mp hp with h1 | h1
    · rw [h1]
      exact rfl
    · rcases List.mem_cons.mp h1 with h2 | h2
      · rw [h2]
        exact rfl
      · exact absurd h2 (by simp)
  refine ⟨hpre, ?_⟩
  have h := C7_pipeline_hook_order [(0, passMW), (1, passMW)] "entry" hpre
  simpa using h

/-! ## C1: a decided approval record is terminal -/

/-- C1: once a record's decision has been set by a successful Approve or
Deny, the other operation (and a repeat of the same one) on that ID fails
with the "already decided" error and leaves the queue — in particular the
record's decision — unchanged, regardless of which succeeded first. -/
theorem C1_decision_terminal (q : ApprovalQueue) (now₁ now₂ : Nat)
    (id a₁ a₂ reason₁ reason₂ : String) (ttl₁ ttl₂ : Nat) (q' : ApprovalQueue)
    (rec : SecurityRecord) :
    (q.approve now₁ id a₁ ttl₁ = (q', Except.ok rec) →
        q'.approve now₂ id a₂ ttl₂ = (q', Except.error "approval: already decided") ∧
        q'.deny now₂ id a₂ reason₂ = (q', Except.error "approval: already decided") ∧
        alookup id q'.records = some rec) ∧
    (q.deny now₁ id a₁ reason₁ = (q', Except.ok rec) →
        q'.approve now₂ id a₂ ttl₂ = (q', Except.error "approval: already decided") ∧
        q'.deny now₂ id a₂ reason₂ = (q', Except.error "approval: already decided") ∧
        alookup id q'.records = some rec) := by
  constructor
  · intro h
    simp only [ApprovalQueue.approve] at h
    split at h
    · simp at h
    · split at h
      · simp at h
      · simp only [Prod.mk.injEq, Except.ok.injEq] at h
        obtain ⟨hq, hrec⟩ := h
        subst hq
        subst hrec
        refine ⟨?_, ?_, ?_⟩
        · simp [ApprovalQueue.approve, alookup_upsert_self]
        · simp [ApprovalQueue.deny, alookup_upsert_self]
        · simp [alookup_upsert_self]
  · intro h
    simp only [ApprovalQueue.deny] at h
    split at h
    · simp at h
    · split at h
      · simp at h
      · simp only [Prod.mk.injEq, Except.ok.injEq] at h
        obtain ⟨hq, hrec⟩ := h
        subst hq
        subst hrec
        refine ⟨?_, ?_, ?_⟩
        · simp [ApprovalQueue.approve, alookup_upsert_self]
        · simp [ApprovalQueue.deny, alookup_upsert_self]
        · simp [alookup_upsert_self]

/-- A queue holding one pending record, created by a valid request. -/
def qWithPending : ApprovalQueue := (NewApprovalQueue.request 5 "sess" "ls" []).1

/-- Witness for C1: on the concrete pending record, after Approve
succeeds both Approve and Deny fail, and after Deny succeeds both fail. -/
theorem C1_decision_terminal_witness :
    (∃ qA recA, qWithPending.approve 6 "approval-0" "alice" 60 = (qA, Except.ok recA) ∧
        qA.approve 7 "approval-0" "bob" 0 = (qA, Except.error "approval: already decided") ∧
        qA.deny 7 "approval-0" "bob" "late" = (qA, Except.error "approval: already decided")) ∧
    (∃ qD recD, qWithPending.deny 6 "approval-0" "bob" "unsafe" = (qD, Except.ok recD) ∧
        qD.approve 7 "approval-0" "ops" 0 = (qD, Except.error "approval: already decided") ∧
        qD.deny 7 "approval-0" "ops" "again" = (qD, Except.error "approval: already decided")) := by
  constructor
  · refine ⟨_, _, rfl, ?_, ?_⟩
    · exact ((C1_decision_terminal qWithPending 6 7 "approval-0" "alice" "bob" "x" "late" 60 0
        _ _).1 rfl).1
    · exact ((C1_decision_terminal qWithPending 6 7 "approval-0" "alice" "bob" "x" "late" 60 0
        _ _).1 rfl).2.1
  · refine ⟨_, _, rfl, ?_, ?_⟩
    · exact ((C1_decision_terminal qWithPending 6 7 "approval-0" "bob" "ops" "unsafe" "again" 0 0
        _ _).2 rfl).1
    · exact ((C1_decision_terminal qWithPending 6 7 "approval-0" "bob" "ops" "unsafe" "again" 0 0
        _ _).2 rfl).2.1

/-! ## C3: whitelist TTL gives auto-approval until expiry -/

/-- C3: when `Approve(id, approver, ttl)` succeeds with `ttl > 0`, every
Request in the approved record's session scope at a time before the
expiry now+ttl returns an auto-approved record (Approved, Auto=true, with
the whitelisted reason, no blocking — the record is already decided when
returned); at or after the expiry the entry counts as absent and a
Request yields a fresh Pending record. -/
theorem C3_whitelist_ttl (q : ApprovalQueue) (now : Nat) (id approver : String)
    (ttl : Nat) (q' : ApprovalQueue) (rec : SecurityRecord)
    (h : q.approve now id approver ttl = (q', Except.ok rec))
    (httl : 0 < ttl)
    (hsess : trimSpace rec.sessionID ≠ "") :
    (∀ (now' : Nat) (cmd : String) (paths : List String),
        now' < now + ttl → trimSpace cmd ≠ "" →
        ∃ r, (q'.request now' rec.sessionID cmd paths).2 = Except.ok r ∧
          r.state = ApprovalState.approved ∧ r.autoApproved = true ∧
          r.reason = "whitelisted session" ∧ r.approvedAt = some now') ∧
    (∀ (now' : Nat) (cmd : String) (paths : List String),
        now + ttl ≤ now' → trimSpace cmd ≠ "" →
        ∃ r, (q'.request now' rec.sessionID cmd paths).2 = Except.ok r ∧
          r.state = ApprovalState.pending ∧ r.autoApproved = false) := by
  simp only [ApprovalQueue.approve] at h
  split at h
  · simp at h
  · split at h
    · simp at h
    · simp only [Prod.mk.injEq, Except.ok.injEq] at h
      obtain ⟨hq, hrec⟩ := h
      subst hq
      subst hrec
      constructor
      · intro now' cmd paths hlt hcmd
        simp only [ApprovalQueue.request, ApprovalQueue.isWhitelisted] at *
        simp [hsess, hcmd, httl, alookup_upsert_self, hlt]
      · intro now' cmd paths hge hcmd
        simp only [ApprovalQueue.request, ApprovalQueue.isWhitelisted] at *
        simp [hsess, hcmd, httl, alookup_upsert_self, Nat.not_lt.mpr hge]

/-- The record produced by approving the concrete pending record at time
6 with a 60-second TTL. -/
def recOfApprove : SecurityRecord :=
  { id := "approval-0", sessionID := "sess", command := "ls", paths := [],
    state := .approved, autoApproved := false, approver := "alice", reason := "",
    requested := 5, approvedAt := some 6, deniedAt := none, expiresAt := some 66 }

/-- Witness for C3: approving the concrete pending record with a
one-minute TTL auto-approves a request at a time inside the TTL and
leaves a request after the expiry pending. -/
theorem C3_whitelist_ttl_witness :
    qWithPending.approve 6 "approval-0" "alice" 60 =
      ((qWithPending.approve 6 "approval-0" "alice" 60).1,
        Except.ok (recOfApprove)) ∧
    0 < 60 ∧ trimSpace (recOfApprove).sessionID ≠ "" ∧
    (∃ r, (((qWithPending.approve 6 "approval-0" "alice" 60).1).request 30
          (recOfApprove).sessionID "rm" []).2 = Except.ok r ∧
        r.state = ApprovalState.approved ∧ r.autoApproved = true ∧
        r.reason = "whitelisted session" ∧ r.approvedAt = some 30) ∧
    (∃ r, (((qWithPending.approve 6 "approval-0" "alice" 60).1).request 120
          (recOfApprove).sessionID "rm" []).2 = Except.ok r ∧
        r.state = ApprovalState.pending ∧ r.autoApproved = false) := by
  refine ⟨rfl, by decide, by decide, ?_, ?_⟩
  · exact (C3_whitelist_ttl qWithPending 6 "approval-0" "alice" 60 _ _ rfl (by decide)
      (by decide)).1 30 "rm" [] (by decide) (by decide)
  · exact (C3_whitelist_ttl qWithPending 6 "approval-0" "alice" 60 _ _ rfl (by decide)
      (by decide)).2 120 "rm" [] (by decide) (by decide)

/-! ## C9: Execute validates params before running the tool body -/

theorem checkRequired_isSome_of_missing (required : List String)
    (params : List (String × Value))
    (h : ∃ f ∈ required, alookup f params = none) :
    (checkRequired required params).isSome := by
  induction required with
  | nil => simp at h
  | cons f0 rest ih =>
    obtain ⟨f, hf, hmiss⟩ := h
    by_cases h0 : (alookup f0 params).isSome
    · rcases List.mem_cons.mp hf with h1 | h1
      · subst h1
        rw [hmiss] at h0
        simp at h0
      · simp only [checkRequired, h0, if_true]
        exact ih ⟨f, h1, hmiss⟩
    · simp [checkRequired, h0]

/-- C9: when a registered tool declares a schema, `Execute` runs the
default validator on the params first — a rejection (in particular a
missing required field) is returned as the tool's validation error and
the tool body is never invoked (the result is independent of the body) —
while a tool with a nil schema skips validation and runs, as does one
whose params validate. -/
theorem C9_execute_validates (tools : List (String × Tool)) (name : String)
    (t : Tool) (params : List (String × Value))
    (hget : alookup name tools = some t) :
    (∀ schema e, t.schema = some schema → Validate params (some schema) = some e →
        Execute { tools := tools, validator := some Validate } name params =
          Except.error ("tool " ++ name ++ " validation failed: " ++ e)) ∧
      (t.schema = none →
        Execute { tools := tools, validator := some Validate } name params =
          t.exec params) ∧
      (∀ schema, t.schema = some schema → Validate params (some schema) = none →
        Execute { tools := tools, validator := some Validate } name params =
          t.exec params) ∧
      (∀ (t₁ t₂ : Tool) (schema : JSONSchema) (e : String),
        t₁.schema = some schema → t₂.schema = some schema →
        Validate params (some schema) = some e →
        Execute { tools := [(name, t₁)], validator := some Validate } name params =
          Execute { tools := [(name, t₂)], validator := some Validate } name params) ∧
      (∀ schema : JSONSchema, (∃ f ∈ schema.required, alookup f params = none) →
        (Validate params (some schema)).isSome) := by
  refine ⟨?_, ?_, ?_, ?_, ?_⟩
  · intro schema e hschema hval
    simp [Execute, Registry.get, hget, hschema, hval]
  · intro hschema
    simp [Execute, Registry.get, hget, hschema]
  · intro schema hschema hval
    simp [Execute, Registry.get, hget, hschema, hval]
  · intro t₁ t₂ schema e h₁ h₂ hval
    simp [Execute, Registry.get, alookup, h₁, h₂, hval]
  · intro schema hmiss
    obtain ⟨e, he⟩ := Option.isSome_iff_exists.mp
      (checkRequired_isSome_of_missing schema.required params hmiss)
    simp [Validate, he]

/-- A schema requiring a string `path` parameter. -/
def pathSchema : JSONSchema :=
  { type_ := "object",
    properties := [("path", Value.obj [("type", Value.str "string")])],
    required := ["path"] }

/-- A tool guarded by `pathSchema`. -/
def writeTool : Tool :=
  { name := "writer", schema := some pathSchema,
    exec := fun _ => .ok { output := "written", success := true } }

/-- A registry holding the writer tool with the default validator. -/
def regW : Registry := { tools := [("writer", writeTool)], validator := some Validate }

/-- A registry holding the schema-less echo tool with the default
validator. -/
def regE : Registry := { tools := [("echo", echoTool)], validator := some Validate }

/-- Witness for C9: a missing required field and a wrongly-typed field
both abort `Execute` with the validation error, while the schema-less
echo tool runs. -/
theorem C9_execute_validates_witness :
    alookup "writer" regW.tools = some writeTool ∧
      writeTool.schema = some pathSchema ∧
      Validate [] (some pathSchema) = some "missing required field: path" ∧
      Execute regW "writer" [] =
        Except.error "tool writer validation failed: missing required field: path" ∧
      Validate [("path", Value.intV 3)] (some pathSchema) =
        some "field path: expected string" ∧
      Execute regW "writer" [("path", Value.intV 3)] =
        Except.error "tool writer validation failed: field path: expected string" ∧
      alookup "echo" regE.tools = some echoTool ∧
      echoTool.schema = none ∧
      Execute regE "echo" [] = Except.ok { output := "pong", success := true } := by
  refine ⟨rfl, rfl, rfl, ?_, rfl, ?_, rfl, rfl, ?_⟩
  · exact (C9_execute_validates regW.tools "writer" writeTool [] rfl).1
      pathSchema "missing required field: path" rfl rfl
  · exact (C9_execute_validates regW.tools "writer" writeTool
      [("path", Value.intV 3)] rfl).1 pathSchema "field path: expected string" rfl rfl
  · exact (C9_execute_validates regE.tools "echo" echoTool [] rfl).2.1 rfl

/-! ## C2: durable log reconstruction and whitelist recovery -/

theorem reconstruct_append (entries : List Record) (r : Record) :
    reconstruct (entries ++ [r]) = applyEntry (reconstruct entries) r := by
  simp [reconstruct, List.foldl_append]

theorem applyEntry_mem {acc : List Record} {e r : Record}
    (h : r ∈ applyEntry acc e) : (∃ x ∈ acc, x.id = r.id) ∨ e.id = r.id := by
  unfold applyEntry at h
  split at h
  · obtain ⟨x, hx, hfx⟩ := List.mem_map.mp h
    by_cases hxe : x.id = e.id
    · rw [if_pos hxe] at hfx
      exact Or.inr (hfx ▸ rfl)
    · rw [if_neg hxe] at hfx
      exact Or.inl ⟨x, hx, hfx ▸ rfl⟩
  · rcases List.mem_append.mp h with h1 | h1
    · exact Or.inl ⟨r, h1, rfl⟩
    · exact Or.inr ((List.mem_singleton.mp h1) ▸ rfl)

theorem mem_fold_ids (entries : List Record) :
    ∀ (acc : List Record) (r : Record), r ∈ entries.foldl applyEntry acc →
      (∃ x ∈ acc, x.id = r.id) ∨ (∃ x ∈ entries, x.id = r.id) := by
  induction entries with
  | nil =>
    intro acc r h
    exact Or.inl ⟨r, h, rfl⟩
  | cons e rest ih =>
    intro acc r h
    rw [List.foldl_cons] at h
    rcases ih (applyEntry acc e) r h with h1 | h1
    · obtain ⟨x, hx, hid⟩ := h1
      rcases applyEntry_mem hx with h2 | h2
      · obtain ⟨y, hy, hyid⟩ := h2
        exact Or.inl ⟨y, hy, hyid.trans hid⟩
      · exact Or.inr ⟨e, List.mem_cons_self _ _, h2.trans hid⟩
    · obtain ⟨x, hx, hid⟩ := h1
      exact Or.inr ⟨x, List.mem_cons_of_mem _ hx, hid⟩

theorem mem_records_id_lt (q : Queue) (hq : QueueInv q) {x : Record}
    (hx : x ∈ q.records) : x.id < q.nextID := by
  unfold QueueInv at hq
  have hx' : x ∈ q.store.entries.foldl applyEntry [] := by
    rw [← reconstruct, ← hq.1]
    exact hx
  rcases mem_fold_ids q.store.entries [] x hx' with h | h
  · simp at h
  · obtain ⟨y, hy, hyid⟩ := h
    exact hyid ▸ hq.2.1 y hy

theorem applyEntry_fresh {acc : List Record} {r : Record}
    (h : ∀ x ∈ acc, x.id ≠ r.id) : applyEntry acc r = acc ++ [r] := by
  have ha : acc.any (fun x => x.id = r.id) = false := by
    simp only [List.any_eq_false, decide_eq_true_eq]
    exact h
  simp [applyEntry, ha]

theorem applyEntry_update {acc : List Record} {r x0 : Record}
    (hx : x0 ∈ acc) (hid : x0.id = r.id) :
    applyEntry acc r = acc.map (fun x => if x.id = r.id then r else x) := by
  have ha : acc.any (fun x => x.id = r.id) = true :=
    List.any_eq_true.mpr ⟨x0, hx, by simp [hid]⟩
  simp [applyEntry, ha]

theorem request_inv (q : Queue) (hq : QueueInv q) (now : Nat) (s t : String)
    (p : List (String × Value)) : QueueInv (q.request now s t p).1 := by
  unfold Queue.request
  by_cases h1 : trimSpace s = ""
  · simpa [h1] using hq
  · by_cases h2 : trimSpace t = ""
    · simpa [h1, h2] using hq
    · simp only [h1, h2, if_false]
      have hid : (q.requestRecord now s t p).id = q.nextID := by
        unfold Queue.requestRecord
        split <;> rfl
      unfold QueueInv at hq ⊢
      refine ⟨?_, ?_, ?_⟩
      · show q.records ++ [q.requestRecord now s t p] =
          reconstruct ((q.store.append (q.requestRecord now s t p)).entries)
        rw [RecordLog.append, reconstruct_append, ← hq.1]
        refine (applyEntry_fresh ?_).symm
        intro x hx
        rw [hid]
        exact Nat.ne_of_lt (mem_records_id_lt q hq hx)
      · intro r hr
        simp only [RecordLog.append] at hr
        rcases List.mem_append.mp hr with h | h
        · exact Nat.lt_succ_of_lt (hq.2.1 r h)
        · rw [List.mem_singleton.mp h, hid]
          exact Nat.lt_succ_self _
      · show q.nextID + 1 ≤ (q.store.append (q.requestRecord now s t p)).entries.length
        simp only [RecordLog.append, List.length_append, List.length_singleton]
        omega

theorem approve_ok (q : Queue) (now : Nat) (id : Nat) (a : String) (ttl : Nat)
    (q' : Queue) (rec : Record)
    (h : q.approve now id a ttl = (q', Except.ok rec)) :
    ∃ r0, q.records.find? (fun r => r.id = id) = some r0 ∧
      r0.decision = Decision.pending ∧
      rec = { r0 with
        decision := .approved, comment := a, approvedAt := some now,
        expiresAt := if 0 < ttl then some (now + ttl) else none } ∧
      q' = { q with
        store := q.store.append rec,
        records := q.records.map (fun x => if x.id = id then rec else x),
        whitelist :=
          if 0 < ttl then upsert (r0.sessionID, r0.tool) (now + ttl) q.whitelist
          else q.whitelist } := by
  unfold Queue.approve at h
  split at h
  · simp at h
  next r0 hf =>
    split at h
    · simp at h
    next hs =>
      simp only [Prod.mk.injEq, Except.ok.injEq] at h
      obtain ⟨hq', hrec⟩ := h
      refine ⟨r0, hf, not_not.mp (fun hd => hs hd), hrec.symm, ?_⟩
      rw [← hq', ← hrec]

theorem deny_ok (q : Queue) (now : Nat) (id : Nat) (a : String)
    (q' : Queue) (rec : Record)
    (h : q.deny now id a = (q', Except.ok rec)) :
    ∃ r0, q.records.find? (fun r => r.id = id) = some r0 ∧
      r0.decision = Decision.pending ∧
      rec = { r0 with decision := .denied, comment := a, deniedAt := some now } ∧
      q' = { q with
        store := q.store.append rec,
        records := q.records.map (fun x => if x.id = id then rec else x) } := by
  unfold Queue.deny at h
  split at h
  · simp at h
  next r0 hf =>
    split at h
    · simp at h
    next hs =>
      simp only [Prod.mk.injEq, Except.ok.injEq] at h
      obtain ⟨hq', hrec⟩ := h
      refine ⟨r0, hf, not_not.mp (fun hd => hs hd), hrec.symm, ?_⟩
      rw [← hq', ← hrec]

theorem update_inv (q : Queue) (hq : QueueInv q) (id : Nat) (rec r0 : Record)
    (hf : q.records.find? (fun r => r.id = id) = some r0)
    (hrecid : rec.id = r0.id) :
    QueueInv { q with
      store := q.store.append rec,
      records := q.records.map (fun x => if x.id = id then rec else x) } := by
  have hr0 : r0 ∈ q.records := List.mem_of_find?_eq_some hf
  have hr0id : r0.id = id := by simpa using List.find?_some hf
  have hidlt : r0.id < q.nextID := mem_records_id_lt q hq hr0
  unfold QueueInv at hq ⊢
  refine ⟨?_, ?_, ?_⟩
  · show q.records.map (fun x => if x.id = id then rec else x) =
      reconstruct ((q.store.append rec).entries)
    rw [RecordLog.append, reconstruct_append, ← hq.1,
      applyEntry_update hr0 (hr0id.trans (hrecid.trans hr0id).symm)]
    rw [show rec.id = id from hrecid.trans hr0id]
  · intro r hr
    simp only [RecordLog.append] at hr
    rcases List.mem_append.mp hr with h | h
    · exact hq.2.1 r h
    · rw [List.mem_singleton.mp h, hrecid]
      exact hidlt
  · show q.nextID ≤ (q.store.append rec).entries.length
    simp only [RecordLog.append, List.length_append, List.length_singleton]
    omega

theorem approve_inv (q : Queue) (hq : QueueInv q) (now : Nat) (id : Nat)
    (a : String) (ttl : Nat) : QueueInv (q.approve now id a ttl).1 := by
  cases hres : q.approve now id a ttl with
  | mk q' res =>
    cases res with
    | error e =>
      have hq' : q' = q := by
        unfold Queue.approve at hres
        split at hres
        · simp only [Prod.mk.injEq] at hres
          exact hres.1.symm
        · split at hres
          · simp only [Prod.mk.injEq] at hres
            exact hres.1.symm
          · exfalso
            simp at hres
      simpa [hq'] using hq
    | ok rec =>
      obtain ⟨r0, hf, hpend, hrec, hq'⟩ := approve_ok q now id a ttl q' rec hres
      have hr0id : r0.id = id := by simpa using List.find?_some hf
      have hrecid : rec.id = r0.id := by rw [hrec]
      subst hq'
      simp only []
      exact update_inv q hq id rec r0 hf hrecid

theorem deny_inv (q : Queue) (hq : QueueInv q) (now : Nat) (id : Nat)
    (a : String) : QueueInv (q.deny now id a).1 := by
  cases hres : q.deny now id a with
  | mk q' res =>
    cases res with
    | error e =>
      have hq' : q' = q := by
        unfold Queue.deny at hres
        split at hres
        · simp only [Prod.mk.injEq] at hres
          exact hres.1.symm
        · split at hres
          · simp only [Prod.mk.injEq] at hres
            exact hres.1.symm
          · exfalso
            simp at hres
      simpa [hq'] using hq
    | ok rec =>
      obtain ⟨r0, hf, hpend, hrec, hq'⟩ := deny_ok q now id a q' rec hres
      have hrecid : rec.id = r0.id := by rw [hrec]
      subst hq'
      simp only []
      exact update_inv q hq id rec r0 hf hrecid

theorem wlActive_upsert_self {wl : List ((String × String) × Nat)} {now e : Nat}
    {key : String × String} (h : now < e) :
    wlActive (upsert key e wl) now key = true := by
  simp [wlActive, alookup_upsert_self, h]

theorem wlActive_derStep_preserve {now : Nat} {wl : List ((String × String) × Nat)}
    {key : String × String} (r : Record) (h : wlActive wl now key = true) :
    wlActive (derStep now wl r) now key = true := by
  unfold derStep
  split
  · split
    next e _ hlt =>
      by_cases hk : (r.sessionID, r.tool) = key
      · rw [hk]
        exact wlActive_upsert_self hlt
      · unfold wlActive at h ⊢
        rw [alookup_upsert_ne (Ne.symm hk)]
        exact h
    next => exact h
  · exact h

theorem wlActive_fold_preserve (now : Nat) (records : List Record) :
    ∀ (wl : List ((String × String) × Nat)) (key : String × String),
      wlActive wl now key = true →
      wlActive (records.foldl (derStep now) wl) now key = true := by
  induction records with
  | nil =>
    intro wl key h
    simpa using h
  | cons r rest ih =>
    intro wl key h
    rw [List.foldl_cons]
    exact ih _ _ (wlActive_derStep_preserve r h)

theorem wlActive_fold_insert (now : Nat) (r : Record) (e : Nat)
    (hdec : r.decision = Decision.approved) (hexp : r.expiresAt = some e)
    (hlt : now < e) :
    ∀ (records : List Record) (wl : List ((String × String) × Nat)),
      r ∈ records →
      wlActive (records.foldl (derStep now) wl) now (r.sessionID, r.tool) = true := by
  intro records
  induction records with
  | nil =>
    intro wl hr
    simp at hr
  | cons x rest ih =>
    intro wl hr
    rw [List.foldl_cons]
    rcases List.mem_cons.mp hr with h1 | h1
    · apply wlActive_fold_preserve
      have hstep : derStep now wl x = upsert (r.sessionID, r.tool) e wl := by
        unfold derStep
        rw [← h1, hdec, hexp]
        simp [hlt]
      rw [hstep]
      exact wlActive_upsert_self hlt
    · exact ih (derStep now wl x) h1

/-- C2: with the durability invariant — the in-memory record map equals
the reconstruction of the durable log — closing the queue and building a
new one from the same store reconstructs every record exactly as last
persisted (Pending records reappear via the pending listing with their
original ID and fields, decided records stay decided); the invariant is
established and preserved by Request, Approve and Deny; and for an
approval that granted a still-unexpired TTL both the pre-restart queue
and the reconstructed queue answer `IsWhitelisted` true, so a Request in
that scope auto-approves after the restart exactly as before it. -/
theorem C2_recovery_roundtrip (q : Queue) (now : Nat) (hq : QueueInv q) :
    ((NewQueue (Queue.close q) now).records = q.records ∧
      (∀ s, (NewQueue (Queue.close q) now).pendingFor s = q.pendingFor s) ∧
      QueueInv (NewQueue (Queue.close q) now)) ∧
      (∀ (now' : Nat) (s t : String) (p : List (String × Value)),
        QueueInv (q.request now' s t p).1) ∧
      (∀ (now' id : Nat) (a : String) (ttl : Nat),
        QueueInv (q.approve now' id a ttl).1) ∧
      (∀ (now' id : Nat) (a : String), QueueInv (q.deny now' id a).1) ∧
      (∀ (now₁ id : Nat) (approver : String) (ttl : Nat) (q' : Queue) (rec : Record),
        q.approve now₁ id approver ttl = (q', Except.ok rec) → 0 < ttl →
        ∀ now', now' < now₁ + ttl →
          q'.isWhitelisted now' rec.sessionID rec.tool = true ∧
          (NewQueue (Queue.close q') now').isWhitelisted now' rec.sessionID
              rec.tool = true ∧
          (∀ p, trimSpace rec.sessionID ≠ "" → trimSpace rec.tool ≠ "" →
            ∃ r, ((NewQueue (Queue.close q') now').request now' rec.sessionID
                  rec.tool p).2 = Except.ok (r, true) ∧
              r.decision = Decision.approved ∧ r.auto = true ∧
              r.comment = "whitelisted")) := by
  have hq0 := hq
  unfold QueueInv at hq0
  have hrecords : (NewQueue (Queue.close q) now).records = q.records := by
    show reconstruct q.store.entries = q.records
    exact hq0.1.symm
  refine ⟨⟨hrecords, ?_, ?_⟩, ?_, ?_, ?_, ?_⟩
  · intro s
    unfold Queue.pendingFor
    rw [hrecords]
  · refine ⟨rfl, ?_, ?_⟩
    · intro r hr
      exact Nat.lt_of_lt_of_le (hq0.2.1 r hr) hq0.2.2
    · exact Nat.le_refl _
  · intro now' s t p
    exact request_inv q hq now' s t p
  · intro now' id a ttl
    exact approve_inv q hq now' id a ttl
  · intro now' id a
    exact deny_inv q hq now' id a
  · intro now₁ id approver ttl q' rec happrove httl now' hlt
    obtain ⟨r0, hf, hpend, hrec, hq'⟩ := approve_ok q now₁ id approver ttl q' rec happrove
    have hr0 : r0 ∈ q.records := List.mem_of_find?_eq_some hf
    have hr0id : r0.id = id := by simpa using List.find?_some hf
    have hsess : rec.sessionID = r0.sessionID := by rw [hrec]
    have htool : rec.tool = r0.tool := by rw [hrec]
    have hdec : rec.decision = Decision.approved := by rw [hrec]
    have hrecid : rec.id = r0.id := by rw [hrec]
    have hexp : rec.expiresAt = some (now₁ + ttl) := by
      rw [hrec]
      simp [httl]
    subst hq'
    have hwl2 : (NewQueue
        (Queue.close { q with
          store := q.store.append rec,
          records := q.records.map (fun x => if x.id = id then rec else x),
          whitelist :=
            if 0 < ttl then upsert (r0.sessionID, r0.tool) (now₁ + ttl) q.whitelist
            else q.whitelist }) now').isWhitelisted now' rec.sessionID rec.tool
        = true := by
      have hmem : rec ∈ reconstruct ((q.store.append rec).entries) := by
        rw [RecordLog.append, reconstruct_append, ← hq0.1,
          applyEntry_update hr0 hrecid.symm]
        exact List.mem_map.mpr ⟨r0, hr0, by rw [if_pos hrecid.symm]⟩
      show wlActive (deriveWhitelist (reconstruct ((q.store.append rec).entries)) now')
          now' (rec.sessionID, rec.tool) = true
      unfold deriveWhitelist
      exact wlActive_fold_insert now' rec (now₁ + ttl) hdec hexp hlt _ [] hmem
    refine ⟨?_, hwl2, ?_⟩
    · show Queue.isWhitelisted _ now' rec.sessionID rec.tool = true
      unfold Queue.isWhitelisted
      simp only [httl, if_true]
      rw [hsess, htool]
      exact wlActive_upsert_self hlt
    · intro p hsne htne
      simp [Queue.request, Queue.requestRecord, hsne, htne, Queue.isWhitelisted] at hwl2 ⊢
      simp [Queue.request, Queue.requestRecord, Queue.isWhitelisted, hsne, htne, hwl2]

/-- The pkg/approval queue after one valid request at time 1 on a fresh
store: it holds a single pending record with ID 0. -/
def q1 : Queue := ((NewQueue NewRecordLog 0).request 1 "sess-recover" "tool.echo" []).1

/-- Witness for C2 on the recovery scenario of the integration test: the
queue with one pending record satisfies the durability invariant, survives
close-and-reopen with its records and pending listing intact, and after
approving with a 60-tick TTL the reopened queue still whitelists the
scope at time 30 and auto-approves a request there. -/
theorem C2_recovery_roundtrip_witness :
    QueueInv q1 ∧
      (NewQueue (Queue.close q1) 5).records = q1.records ∧
      (NewQueue (Queue.close q1) 5).pendingFor "sess-recover" =
        q1.pendingFor "sess-recover" ∧
      ((q1.approve 2 0 "ok" 60).1).isWhitelisted 30 "sess-recover" "tool.echo" = true ∧
      (NewQueue (Queue.close (q1.approve 2 0 "ok" 60).1) 30).isWhitelisted 30
          "sess-recover" "tool.echo" = true ∧
      (∃ r, ((NewQueue (Queue.close (q1.approve 2 0 "ok" 60).1) 30).request 30
            "sess-recover" "tool.echo" []).2 = Except.ok (r, true) ∧
        r.decision = Decision.approved ∧ r.auto = true ∧ r.comment = "whitelisted") := by
  have hinv : QueueInv q1 := ⟨rfl, by decide, by decide⟩
  have h := C2_recovery_roundtrip q1 5 hinv
  have he := h.2.2.2.2 2 0 "ok" 60 _ _ rfl (by decide) 30 (by decide)
  exact ⟨hinv, h.1.1, h.1.2.1 "sess-recover", he.1, he.2.1,
    he.2.2 [] (by decide) (by decide)⟩

/-! ## C10: operations on a closed MemorySession -/

/-- Counterexample to C10 as stated: on a closed session, `Append` with a
blank role fails with `ErrInvalidMessage`, not `ErrSessionClosed` — the
role validation in part_005 runs before the closed check, so not every
post-Close operation fails with `ErrSessionClosed`. -/
theorem C10_counterexample :
    (MemorySession.close freshChat).1.append 7
        { id := "", role := " ", content := "hi", timestamp := 0 } =
      Except.error SessionErr.invalidMessage ∧
      SessionErr.invalidMessage ≠ SessionErr.sessionClosed :=
  ⟨rfl, by decide⟩

/-- C10 (amended): after `Close()` returns, every subsequent operation
whose own argument validation passes fails cleanly with
`ErrSessionClosed` — `Append` with a non-blank role, `List`
unconditionally, `Checkpoint` and `Resume` with a non-blank name, `Fork`
with a non-blank id — while an operation whose argument validation fails
keeps its validation error, and a second `Close()` returns nil leaving
the session unchanged. -/
theorem C10_closed_session (s : MemorySession) (h : s.closed = true) :
    (∀ (now : Nat) (msg : Message), trimSpace msg.role ≠ "" →
        s.append now msg = Except.error SessionErr.sessionClosed) ∧
      (∀ f : Filter, s.list f = Except.error SessionErr.sessionClosed) ∧
      (∀ name : String, trimSpace name ≠ "" →
        s.checkpoint name = Except.error SessionErr.sessionClosed ∧
          s.resume name = Except.error SessionErr.sessionClosed) ∧
      (∀ id : String, trimSpace id ≠ "" →
        s.fork id = Except.error SessionErr.sessionClosed) ∧
      s.close = (s, none) := by
  refine ⟨?_, ?_, ?_, ?_, ?_⟩
  · intro now msg hrole
    simp [MemorySession.append, hrole, h]
  · intro f
    simp [MemorySession.list, h]
  · intro name hname
    constructor
    · simp [MemorySession.checkpoint, normalizeCheckpointName, hname, h]
    · simp [MemorySession.resume, normalizeCheckpointName, hname, h]
  · intro id hid
    simp [MemorySession.fork, hid, h]
  · simp [MemorySession.close, h]

/-- Witness for C10 on the closed "chat" session. -/
theorem C10_closed_session_witness :
    (MemorySession.close freshChat).1.closed = true ∧
      (MemorySession.close freshChat).1.append 7
          { id := "", role := "user", content := "x", timestamp := 0 } =
        Except.error SessionErr.sessionClosed ∧
      (MemorySession.close freshChat).1.list {} =
        Except.error SessionErr.sessionClosed ∧
      (MemorySession.close freshChat).1.checkpoint "cp" =
        Except.error SessionErr.sessionClosed ∧
      (MemorySession.close freshChat).1.resume "cp" =
        Except.error SessionErr.sessionClosed ∧
      (MemorySession.close freshChat).1.fork "child" =
        Except.error SessionErr.sessionClosed ∧
      MemorySession.close (MemorySession.close freshChat).1 =
        ((MemorySession.close freshChat).1, none) := by
  have h := C10_closed_session (MemorySession.close freshChat).1 rfl
  exact ⟨rfl, h.1 7 _ (by decide), h.2.1 {},
    (h.2.2.1 "cp" (by decide)).1, (h.2.2.1 "cp" (by decide)).2,
    h.2.2.2.1 "child" (by decide), h.2.2.2.2⟩

end AgentSDK
